import Mathlib

/-!
Verification of the symptom-matching core of `app.py` (RAG Medical Assistant).

Strings are modelled as `List Char`; Python's absent/`None` string is the
empty list.  Scores are modelled in `ℚ` (the Python code computes the same
arithmetic in floating point; all constants 0.15, 0.8, 0.9 are exact).
Fallible operations (raw division) have checked `Option`-valued variants,
used to show the error branches are unreachable.
-/

set_option maxRecDepth 100000

namespace App

/-- ASCII whitespace, the characters matched by the `\s` class used in
`normalize_text` (space, tab, newline, carriage return, vertical tab, form feed). -/
def isWs (c : Char) : Bool :=
  c.toNat = 32 || c.toNat = 9 || c.toNat = 10 || c.toNat = 13 || c.toNat = 11 || c.toNat = 12

/-- `a`–`z`, the letters kept by the regex `[^a-z0-9\s]`. -/
def isLowerAlpha (c : Char) : Bool := 97 ≤ c.toNat && c.toNat ≤ 122

/-- `0`–`9`, the digits kept by the regex `[^a-z0-9\s]`. -/
def isDigitCh (c : Char) : Bool := 48 ≤ c.toNat && c.toNat ≤ 57

/-- Characters kept (not replaced by a space) by `re.sub(r"[^a-z0-9\s]", " ", text)`. -/
def isKeep (c : Char) : Bool := isLowerAlpha c || isDigitCh c || isWs c

/-- ASCII model of `str.lower` (`A`–`Z` map to `a`–`z`, everything else fixed). -/
def lowerChar (c : Char) : Char :=
  if 65 ≤ c.toNat && c.toNat ≤ 90 then Char.ofNat (c.toNat + 32) else c

/-- One character of `text.lower()` followed by `re.sub(r"[^a-z0-9\s]", " ", ·)`. -/
def subChar (c : Char) : Char :=
  if isKeep (lowerChar c) then lowerChar c else ' '

/-- `text.lower()` followed by `re.sub(r"[^a-z0-9\s]", " ", text)`. -/
def phase1 (l : List Char) : List Char := l.map subChar

/-- `re.sub(r"\s+", " ", text)`: collapse every maximal whitespace run to one space. -/
def collapseWs : List Char → List Char
  | [] => []
  | [c] => [if isWs c then ' ' else c]
  | c :: d :: t =>
    if isWs c && isWs d then collapseWs (d :: t)
    else (if isWs c then ' ' else c) :: collapseWs (d :: t)

/-- Remove a trailing whitespace run (the right half of `str.strip()`). -/
def rstrip : List Char → List Char
  | [] => []
  | c :: t =>
    let r := rstrip t
    if r.isEmpty && isWs c then [] else c :: r

/-- `str.strip()`: drop leading and trailing whitespace. -/
def stripWs (l : List Char) : List Char := rstrip (l.dropWhile isWs)

/-- `normalize_text` from `app.py`: lower-case, replace each character outside
`[a-z0-9\s]` by a space, collapse whitespace runs, strip the ends.
`text or ""` (absent input) is the empty list. -/
def normalize_text (l : List Char) : List Char := stripWs (collapseWs (phase1 l))

/-- Accumulator-style worker for Python `str.split()` (split on whitespace,
dropping empty tokens); `acc` holds the current word reversed. -/
def tokensAux : List Char → List Char → List (List Char)
  | [], acc => if acc = [] then [] else [acc.reverse]
  | c :: t, acc =>
    if isWs c then (if acc = [] then tokensAux t [] else acc.reverse :: tokensAux t [])
    else tokensAux t (c :: acc)

/-- Python `s.split()`: whitespace-separated words, empties dropped. -/
def tokens (l : List Char) : List (List Char) := tokensAux l []

/-- Python `set(s.split())`: the token set of a string. -/
def tokSet (l : List Char) : Finset (List Char) := (tokens l).toFinset

/-- `jaccard_similarity` from `app.py`: 0 when either token set is empty,
otherwise intersection size over union size. -/
def jaccard_similarity (a b : List Char) : ℚ :=
  let sa := tokSet a
  let sb := tokSet b
  if sa = ∅ ∨ sb = ∅ then 0
  else ((sa ∩ sb).card : ℚ) / ((sa ∪ sb).card : ℚ)

/-- `pat` is a prefix of `l` (character-wise). -/
def leadsWith : List Char → List Char → Bool
  | [], _ => true
  | _ :: _, [] => false
  | p :: ps, c :: cs => p == c && leadsWith ps cs

/-- Python `pat in l` for strings: `pat` occurs as a contiguous substring of `l`. -/
def hasSubstr : List Char → List Char → Bool
  | [], pat => leadsWith pat []
  | c :: t, pat => leadsWith pat (c :: t) || hasSubstr t pat

/-- Length of the longest common prefix of two strings. -/
def cpl : List Char → List Char → Nat
  | a :: as, b :: bs => if a = b then cpl as bs + 1 else 0
  | _, _ => 0

/-- `difflib.SequenceMatcher.find_longest_match` on whole strings (no junk,
which is the case for all strings under 200 characters): the triple `(i, j, k)`
with `a[i:i+k] == b[j:j+k]`, `k` maximal, then `i` minimal, then `j` minimal. -/
def findLongestMatch (a b : List Char) : Nat × Nat × Nat :=
  (List.range a.length).foldl (fun best i =>
    (List.range b.length).foldl (fun best j =>
      let k := cpl (a.drop i) (b.drop j)
      if best.2.2 < k then (i, j, k) else best) best) (0, 0, 0)

/-- Total size of `difflib`'s matching blocks: recursively take the longest
match and recurse on the pieces to its left and right.  The fuel argument
dominates the recursion depth; `a.length + b.length` is always enough
(`matchTotalF_stable`). -/
def matchTotalF : Nat → List Char → List Char → Nat
  | 0, _, _ => 0
  | fuel + 1, a, b =>
    let m := findLongestMatch a b
    if m.2.2 = 0 then 0
    else
      matchTotalF fuel (a.take m.1) (b.take m.2.1) + m.2.2 +
        matchTotalF fuel (a.drop (m.1 + m.2.2)) (b.drop (m.2.1 + m.2.2))

/-- Sum of the sizes of `difflib.SequenceMatcher(None, a, b).get_matching_blocks()`. -/
def matchTotal (a b : List Char) : Nat := matchTotalF (a.length + b.length) a b

/-- `difflib.SequenceMatcher(None, a, b).ratio()`: twice the matched size over
the total length (1 when both strings are empty, as in `_calculate_ratio`). -/
def sequence_similarity (a b : List Char) : ℚ :=
  if a.length + b.length = 0 then 1
  else (2 * matchTotal a b : ℚ) / ((a.length + b.length : Nat) : ℚ)

/-- The per-candidate score computed in the loop body of `find_best_match`
(`ut` is the normalized query, `symptom` the candidate's normalized key-phrase). -/
def scoreOf (ut symptom : List Char) : ℚ :=
  let symptom_tokens := tokSet symptom
  let ut_tokens := tokSet ut
  if symptom_tokens ∩ ut_tokens ≠ ∅ then
    let base : ℚ := ((symptom_tokens ∩ ut_tokens).card : ℚ) / ((max 1 symptom_tokens.card : Nat) : ℚ)
    if hasSubstr ut symptom then max base (0.9 : ℚ) else base
  else
    max (jaccard_similarity ut symptom) (sequence_similarity ut symptom * (0.8 : ℚ))

/-- A CSV record as consumed by the matcher and the formatter: a Python dict
whose six text fields and cached normalized key-phrase may each be missing
(`r.get(k, "")` tolerates absent keys). -/
structure Row where
  symptom : Option (List Char) := none
  conditions : Option (List Char) := none
  medicines : Option (List Char) := none
  eat : Option (List Char) := none
  avoid : Option (List Char) := none
  doctor_advice : Option (List Char) := none
  symptom_norm : Option (List Char) := none
deriving DecidableEq

/-- One iteration of the loop in `find_best_match`: skip candidates with an
empty normalized key-phrase, otherwise replace the running best exactly when
the new score is strictly higher. -/
def loopStep (ut : List Char) (acc : Option Row × ℚ) (r : Row) : Option Row × ℚ :=
  let symptom := r.symptom_norm.getD []
  if symptom = [] then acc
  else
    let score := scoreOf ut symptom
    if acc.2 < score then (some r, score) else acc

/-- `find_best_match` from `app.py`. -/
def find_best_match (user_text : List Char) (rows : List Row)
    (min_score : ℚ := (0.15 : ℚ)) : Option Row × ℚ :=
  if user_text = [] ∨ rows = [] then (none, 0)
  else
    let ut := normalize_text user_text
    let res := rows.foldl (loopStep ut) (none, 0)
    if min_score ≤ res.2 then res else (none, res.2)

/-- A dict with no keys at all: Python's empty dict `{}`, which is falsy
(`not row` is true for it just as for `None`). -/
def Row.isEmptyDict (r : Row) : Bool :=
  r.symptom.isNone && r.conditions.isNone && r.medicines.isNone && r.eat.isNone &&
    r.avoid.isNone && r.doctor_advice.isNone && r.symptom_norm.isNone

/-- `format_result_row` from `app.py`. Its guard `if not row` fires on every
falsy row: `None` (here `none`) and the empty dict (here a `Row` with every
field missing). -/
def format_result_row (row : Option Row) : List Char :=
  match row with
  | none => "No matching symptom found.".toList
  | some r =>
    if r.isEmptyDict then "No matching symptom found.".toList else
    "Symptom: ".toList ++ r.symptom.getD [] ++ "\n".toList ++
    "Possible Conditions: ".toList ++ r.conditions.getD [] ++ "\n".toList ++
    "Medicines: ".toList ++ r.medicines.getD [] ++ "\n".toList ++
    "Recommended Food: ".toList ++ r.eat.getD [] ++ "\n".toList ++
    "Avoid: ".toList ++ r.avoid.getD [] ++ "\n".toList ++
    "See Doctor If: ".toList ++ r.doctor_advice.getD []

/-- A raw CSV row before cleaning: each of the six columns may be missing. -/
structure RawRow where
  symptom : Option (List Char) := none
  conditions : Option (List Char) := none
  medicines : Option (List Char) := none
  eat : Option (List Char) := none
  avoid : Option (List Char) := none
  doctor_advice : Option (List Char) := none
deriving DecidableEq

/-- `r.get(k, "").strip() if r.get(k) else ""` from `read_symptom_csv`. -/
def cleanField (f : Option (List Char)) : List Char :=
  match f with
  | none => []
  | some s => if s = [] then [] else stripWs s

/-- The per-row record construction in `read_symptom_csv`: clean the six
fields and cache the normalized key-phrase. -/
def loadRow (r : RawRow) : Row :=
  { symptom := some (cleanField r.symptom)
    conditions := some (cleanField r.conditions)
    medicines := some (cleanField r.medicines)
    eat := some (cleanField r.eat)
    avoid := some (cleanField r.avoid)
    doctor_advice := some (cleanField r.doctor_advice)
    symptom_norm := some (normalize_text (cleanField r.symptom)) }

/-- Spec-side: the candidate score of a row (score of its normalized key-phrase). -/
def rowScore (ut : List Char) (r : Row) : ℚ := scoreOf ut (r.symptom_norm.getD [])

/-- Spec-side: the true maximum score over all candidates with a non-empty
normalized key-phrase (0 when there is none). -/
def maxScoreOver (ut : List Char) (rows : List Row) : ℚ :=
  rows.foldr (fun r m => if r.symptom_norm.getD [] = [] then m else max (rowScore ut r) m) 0

/-- Spec-side: the first row in the sequence whose candidate score equals `m`. -/
def firstWithScore (ut : List Char) (rows : List Row) (m : ℚ) : Option Row :=
  rows.find? (fun r => !decide (r.symptom_norm.getD [] = []) && decide (rowScore ut r = m))

/-- Checked division: `none` exactly where Python `/` would raise `ZeroDivisionError`. -/
def qdiv? (a b : ℚ) : Option ℚ := if b = 0 then none else some (a / b)

/-- `jaccard_similarity` with its division checked. -/
def jaccard_similarityE (a b : List Char) : Option ℚ :=
  let sa := tokSet a
  let sb := tokSet b
  if sa = ∅ ∨ sb = ∅ then some 0
  else qdiv? ((sa ∩ sb).card : ℚ) ((sa ∪ sb).card : ℚ)

/-- `SequenceMatcher.ratio` with its division checked (the `if length` guard
in `difflib._calculate_ratio` is the `length = 0` branch). -/
def sequence_similarityE (a b : List Char) : Option ℚ :=
  if a.length + b.length = 0 then some 1
  else qdiv? (2 * matchTotal a b : ℚ) ((a.length + b.length : Nat) : ℚ)

/-- The loop-body score with every division checked. -/
def scoreOfE (ut symptom : List Char) : Option ℚ :=
  let symptom_tokens := tokSet symptom
  let ut_tokens := tokSet ut
  if symptom_tokens ∩ ut_tokens ≠ ∅ then
    (qdiv? ((symptom_tokens ∩ ut_tokens).card : ℚ) ((max 1 symptom_tokens.card : Nat) : ℚ)).map
      (fun base => if hasSubstr ut symptom then max base (0.9 : ℚ) else base)
  else
    (jaccard_similarityE ut symptom).bind (fun jv =>
      (sequence_similarityE ut symptom).map (fun sv => max jv (sv * (0.8 : ℚ))))

/-- The loop body with every division checked. -/
def loopStepE (ut : List Char) (acc : Option Row × ℚ) (r : Row) : Option (Option Row × ℚ) :=
  let symptom := r.symptom_norm.getD []
  if symptom = [] then some acc
  else (scoreOfE ut symptom).map (fun score => if acc.2 < score then (some r, score) else acc)

/-- `find_best_match` with every division checked: `none` would mean some
input reaches a raising operation. -/
def find_best_matchE (user_text : List Char) (rows : List Row)
    (min_score : ℚ := (0.15 : ℚ)) : Option (Option Row × ℚ) :=
  if user_text = [] ∨ rows = [] then some (none, 0)
  else
    let ut := normalize_text user_text
    (List.foldlM (loopStepE ut) ((none : Option Row), (0 : ℚ)) rows).map
      (fun res => if min_score ≤ res.2 then res else (none, res.2))

/-- The "headache" record of the `TestSymptomMatching` fixture. -/
def headacheRow : Row :=
  ⟨some "headache".toList, some "Tension headache".toList, some "Paracetamol".toList,
    some "Water".toList, some "Caffeine".toList, some "If lasts more than 2 days".toList,
    some "headache".toList⟩

/-- The "stomach pain" record of the `TestSymptomMatching` fixture. -/
def stomachRow : Row :=
  ⟨some "stomach pain".toList, some "Indigestion".toList, some "Antacids".toList,
    some "Rice".toList, some "Spicy food".toList, some "If severe".toList,
    some "stomach pain".toList⟩

/-- The "fever" record of the `TestSymptomMatching` fixture. -/
def feverRow : Row :=
  ⟨some "fever".toList, some "Viral infection".toList, some "Paracetamol".toList,
    some "Coconut water".toList, some "Fried food".toList, some "If >102F".toList,
    some "fever".toList⟩

/-- The three-record table of the `TestSymptomMatching` fixture. -/
def testRows : List Row := [headacheRow, stomachRow, feverRow]

/-- Characters that may appear in a normalized string: `[a-z0-9 ]`. -/
def goodChar (c : Char) : Bool := isLowerAlpha c || isDigitCh c || c == ' '

/-- No two adjacent whitespace characters. -/
def noAdjWs : List Char → Bool
  | [] => true
  | [_] => true
  | c :: d :: t => !(isWs c && isWs d) && noAdjWs (d :: t)

/-- The head (if any) is not whitespace. -/
def headOk : List Char → Bool
  | [] => true
  | c :: _ => !isWs c

/-- The last character (if any) is not whitespace. -/
def lastOk (l : List Char) : Bool :=
  match l.getLast? with
  | none => true
  | some c => !isWs c

/-- The six labeled lines rendered by `format_result_row`, in their fixed order. -/
def fieldLines (r : Row) : List (List Char) :=
  ["Symptom: ".toList ++ r.symptom.getD [],
   "Possible Conditions: ".toList ++ r.conditions.getD [],
   "Medicines: ".toList ++ r.medicines.getD [],
   "Recommended Food: ".toList ++ r.eat.getD [],
   "Avoid: ".toList ++ r.avoid.getD [],
   "See Doctor If: ".toList ++ r.doctor_advice.getD []]

/-- Join lines with a newline separator. -/
def joinLines : List (List Char) → List Char
  | [] => []
  | [x] => x
  | x :: y :: t => x ++ '\n' :: joinLines (y :: t)

/-! ### Normalization: canonical-form invariants and idempotence -/

lemma good_char_cases (c : Char) (h : goodChar c = true) :
    (97 ≤ c.toNat ∧ c.toNat ≤ 122) ∨ (48 ≤ c.toNat ∧ c.toNat ≤ 57) ∨ c = ' ' := by
  simp only [goodChar, isLowerAlpha, isDigitCh, Bool.or_eq_true, Bool.and_eq_true,
    decide_eq_true_eq, beq_iff_eq] at h
  tauto

lemma lowerChar_fixed (c : Char) (h : goodChar c = true) : lowerChar c = c := by
  rcases good_char_cases c h with h1 | h1 | rfl
  · have hc : ¬ ((65 ≤ c.toNat && c.toNat ≤ 90) = true) := by
      simp only [Bool.and_eq_true, decide_eq_true_eq]; omega
    rw [lowerChar, if_neg hc]
  · have hc : ¬ ((65 ≤ c.toNat && c.toNat ≤ 90) = true) := by
      simp only [Bool.and_eq_true, decide_eq_true_eq]; omega
    rw [lowerChar, if_neg hc]
  · decide

lemma isKeep_of_good (c : Char) (h : goodChar c = true) : isKeep c = true := by
  rcases good_char_cases c h with h1 | h1 | rfl
  · simp only [isKeep, isLowerAlpha, isDigitCh, isWs, Bool.or_eq_true, Bool.and_eq_true,
      decide_eq_true_eq]
    omega
  · simp only [isKeep, isLowerAlpha, isDigitCh, isWs, Bool.or_eq_true, Bool.and_eq_true,
      decide_eq_true_eq]
    omega
  · decide

lemma good_ws_eq_space (c : Char) (hg : goodChar c = true) (hw : isWs c = true) : c = ' ' := by
  rcases good_char_cases c hg with h | h | rfl
  · exfalso
    simp only [isWs, Bool.or_eq_true, decide_eq_true_eq] at hw
    omega
  · exfalso
    simp only [isWs, Bool.or_eq_true, decide_eq_true_eq] at hw
    omega
  · rfl

lemma subChar_fixed (c : Char) (h : goodChar c = true) : subChar c = c := by
  rw [subChar, lowerChar_fixed c h, if_pos (isKeep_of_good c h)]

lemma phase1_fixed (l : List Char) (h : l.all goodChar = true) : phase1 l = l := by
  induction l with
  | nil => rfl
  | cons c t ih =>
    simp only [List.all_cons, Bool.and_eq_true] at h
    simp only [phase1, List.map_cons] at ih ⊢
    rw [subChar_fixed c h.1, ih h.2]

lemma phase1_all (l : List Char) :
    (phase1 l).all (fun c => goodChar c || isWs c) = true := by
  rw [List.all_eq_true]
  intro c hc
  rw [phase1, List.mem_map] at hc
  obtain ⟨d, -, rfl⟩ := hc
  rw [subChar]
  split
  · next hk =>
    simp only [isKeep, Bool.or_eq_true] at hk
    simp only [goodChar, Bool.or_eq_true]
    tauto
  · decide

lemma noAdjWs_cons_of (c : Char) (l : List Char) (hl : noAdjWs l = true)
    (hc : ∀ d, l.head? = some d → (isWs c && isWs d) = false) :
    noAdjWs (c :: l) = true := by
  cases l with
  | nil => rfl
  | cons d t =>
    have hd := hc d rfl
    simp [noAdjWs, hd, hl]

lemma noAdj_tail (c : Char) (t : List Char) (h : noAdjWs (c :: t) = true) :
    noAdjWs t = true := by
  cases t with
  | nil => rfl
  | cons d t' =>
    simp only [noAdjWs, Bool.and_eq_true] at h
    exact h.2

lemma collapse_cons_nonws (c : Char) (l : List Char) (h : isWs c = false) :
    collapseWs (c :: l) = c :: collapseWs l := by
  cases l with
  | nil => simp [collapseWs, h]
  | cons d t => simp [collapseWs, h]

lemma collapse_all (l : List Char) (h : l.all (fun c => goodChar c || isWs c) = true) :
    (collapseWs l).all goodChar = true := by
  induction l with
  | nil => rfl
  | cons c t ih =>
    cases t with
    | nil =>
      simp only [List.all_cons, Bool.and_eq_true, Bool.or_eq_true] at h
      by_cases hw : isWs c = true
      · have hsp : goodChar ' ' = true := by decide
        simp [collapseWs, hw, hsp]
      · have hg : goodChar c = true := by
          rcases h.1 with hg | hw'
          · exact hg
          · exact absurd hw' hw
        simp only [Bool.not_eq_true] at hw
        simp [collapseWs, hw, hg]
    | cons d t' =>
      simp only [List.all_cons, Bool.and_eq_true, Bool.or_eq_true] at h
      have hrest : (d :: t').all (fun c => goodChar c || isWs c) = true := by
        simp only [List.all_cons, Bool.and_eq_true, Bool.or_eq_true]
        exact ⟨h.2.1, h.2.2⟩
      by_cases hcd : (isWs c && isWs d) = true
      · simp only [collapseWs, hcd, if_true]
        exact ih hrest
      · simp only [Bool.not_eq_true] at hcd
        simp only [collapseWs, hcd, Bool.false_eq_true, if_false, List.all_cons,
          Bool.and_eq_true]
        refine ⟨?_, ih hrest⟩
        by_cases hw : isWs c = true
        · have hsp : goodChar ' ' = true := by decide
          simp [hw, hsp]
        · have hg : goodChar c = true := by
            rcases h.1 with hg | hw'
            · exact hg
            · exact absurd hw' hw
          simp only [Bool.not_eq_true] at hw
          simp [hw, hg]

lemma collapse_noAdj (l : List Char) : noAdjWs (collapseWs l) = true := by
  induction l with
  | nil => rfl
  | cons c t ih =>
    cases t with
    | nil =>
      by_cases hw : isWs c = true
      · simp [collapseWs, hw, noAdjWs]
      · simp only [Bool.not_eq_true] at hw
        simp [collapseWs, hw, noAdjWs]
    | cons d t' =>
      by_cases hcd : (isWs c && isWs d) = true
      · simp only [collapseWs, hcd, if_true]
        exact ih
      · simp only [Bool.not_eq_true] at hcd
        simp only [collapseWs, hcd, Bool.false_eq_true, if_false]
        by_cases hd : isWs d = true
        · have hc : isWs c = false := by
            rcases Bool.and_eq_false_iff.mp hcd with h | h
            · exact h
            · exact absurd hd (by simp [h])
          rw [if_neg (by simp [hc])]
          refine noAdjWs_cons_of c _ ih ?_
          intro e he
          cases hr : collapseWs (d :: t') with
          | nil => rw [hr] at he; exact absurd he (by simp)
          | cons x xs =>
            rw [hr] at he
            simp only [List.head?_cons, Option.some.injEq] at he
            simp [hc]
        · simp only [Bool.not_eq_true] at hd
          rw [collapse_cons_nonws d t' hd]
          refine noAdjWs_cons_of _ _ ?_ ?_
          · rw [← collapse_cons_nonws d t' hd]
            exact ih
          · intro e he
            simp only [List.head?_cons, Option.some.injEq] at he
            subst he
            simp [hd]

lemma collapse_id (l : List Char) (hg : l.all goodChar = true) (hA : noAdjWs l = true) :
    collapseWs l = l := by
  induction l with
  | nil => rfl
  | cons c t ih =>
    simp only [List.all_cons, Bool.and_eq_true] at hg
    have hAt : noAdjWs t = true := noAdj_tail c t hA
    cases t with
    | nil =>
      by_cases hw : isWs c = true
      · have := good_ws_eq_space c hg.1 hw
        subst this
        rfl
      · simp only [Bool.not_eq_true] at hw
        simp [collapseWs, hw]
    | cons d t' =>
      have hrec := ih hg.2 hAt
      by_cases hw : isWs c = true
      · have hcspace := good_ws_eq_space c hg.1 hw
        have hd : isWs d = false := by
          simp only [noAdjWs, Bool.and_eq_true, Bool.not_eq_true', Bool.and_eq_false_iff] at hA
          rcases hA.1 with h | h
          · exact absurd hw (by simp [h])
          · exact h
        simp only [collapseWs, hw, hd, Bool.and_false, Bool.false_eq_true, if_false, if_true]
        rw [hrec, hcspace]
      · simp only [Bool.not_eq_true] at hw
        simp only [collapseWs, hw, Bool.false_and, Bool.false_eq_true, if_false]
        rw [hrec]

lemma dropWhileWs_all (l : List Char) (h : l.all goodChar = true) :
    (l.dropWhile isWs).all goodChar = true := by
  induction l with
  | nil => rfl
  | cons c t ih =>
    simp only [List.all_cons, Bool.and_eq_true] at h
    rw [List.dropWhile_cons]
    by_cases hw : isWs c = true
    · simp only [hw, if_true]
      exact ih h.2
    · simp only [Bool.not_eq_true] at hw
      simp [hw, List.all_cons, h.1, h.2]

lemma dropWhileWs_noAdj (l : List Char) (h : noAdjWs l = true) :
    noAdjWs (l.dropWhile isWs) = true := by
  induction l with
  | nil => rfl
  | cons c t ih =>
    rw [List.dropWhile_cons]
    by_cases hw : isWs c = true
    · simp only [hw, if_true]
      exact ih (noAdj_tail c t h)
    · simp only [Bool.not_eq_true] at hw
      simp only [hw, Bool.false_eq_true, if_false]
      exact h

lemma dropWhileWs_headOk (l : List Char) : headOk (l.dropWhile isWs) = true := by
  induction l with
  | nil => rfl
  | cons c t ih =>
    rw [List.dropWhile_cons]
    by_cases hw : isWs c = true
    · simp only [hw, if_true]
      exact ih
    · simp only [Bool.not_eq_true] at hw
      simp [headOk, hw]

lemma dropWhileWs_id (l : List Char) (h : headOk l = true) : l.dropWhile isWs = l := by
  cases l with
  | nil => rfl
  | cons c t =>
    simp only [headOk, Bool.not_eq_true'] at h
    simp [List.dropWhile_cons, h]

lemma rstrip_cons (c : Char) (t : List Char) :
    rstrip (c :: t) = if (rstrip t).isEmpty && isWs c then [] else c :: rstrip t := rfl

lemma rstrip_head (l : List Char) : rstrip l = [] ∨ (rstrip l).head? = l.head? := by
  cases l with
  | nil => exact Or.inl rfl
  | cons c t =>
    rw [rstrip_cons]
    by_cases hc : ((rstrip t).isEmpty && isWs c) = true
    · simp [hc]
    · simp only [Bool.not_eq_true] at hc
      simp [hc]

lemma rstrip_all (l : List Char) (h : l.all goodChar = true) :
    (rstrip l).all goodChar = true := by
  induction l with
  | nil => rfl
  | cons c t ih =>
    simp only [List.all_cons, Bool.and_eq_true] at h
    rw [rstrip_cons]
    by_cases hc : ((rstrip t).isEmpty && isWs c) = true
    · simp [hc]
    · simp only [Bool.not_eq_true] at hc
      simp only [hc, Bool.false_eq_true, if_false, List.all_cons, Bool.and_eq_true]
      exact ⟨h.1, ih h.2⟩

lemma rstrip_noAdj (l : List Char) (h : noAdjWs l = true) :
    noAdjWs (rstrip l) = true := by
  induction l with
  | nil => rfl
  | cons c t ih =>
    rw [rstrip_cons]
    by_cases hc : ((rstrip t).isEmpty && isWs c) = true
    · simp [hc, noAdjWs]
    · simp only [Bool.not_eq_true] at hc
      simp only [hc, Bool.false_eq_true, if_false]
      refine noAdjWs_cons_of c _ (ih (noAdj_tail c t h)) ?_
      intro d hd
      rcases rstrip_head t with hnil | hhead
      · rw [hnil] at hd
        exact absurd hd (by simp)
      · rw [hhead] at hd
        cases t with
        | nil => exact absurd hd (by simp)
        | cons x xs =>
          simp only [List.head?_cons, Option.some.injEq] at hd
          subst hd
          simp only [noAdjWs, Bool.and_eq_true, Bool.not_eq_true',
            Bool.and_eq_false_iff] at h
          rcases h.1 with h1 | h1
          · simp [h1]
          · simp [h1]

lemma lastOk_cons (c x : Char) (xs : List Char) :
    lastOk (c :: x :: xs) = lastOk (x :: xs) := by
  simp [lastOk, List.getLast?_cons_cons]

lemma rstrip_lastOk (l : List Char) : lastOk (rstrip l) = true := by
  induction l with
  | nil => rfl
  | cons c t ih =>
    rw [rstrip_cons]
    by_cases hc : ((rstrip t).isEmpty && isWs c) = true
    · simp [hc, lastOk]
    · simp only [Bool.not_eq_true] at hc
      simp only [hc, Bool.false_eq_true, if_false]
      cases hr : rstrip t with
      | nil =>
        have hcw : isWs c = false := by
          rcases Bool.and_eq_false_iff.mp hc with h | h
          · rw [hr] at h
            simp at h
          · exact h
        simp [lastOk, hcw]
      | cons x xs =>
        rw [lastOk_cons]
        rw [hr] at ih
        exact ih

lemma rstrip_headOk (l : List Char) (h : headOk l = true) : headOk (rstrip l) = true := by
  cases l with
  | nil => rfl
  | cons c t =>
    rw [rstrip_cons]
    by_cases hc : ((rstrip t).isEmpty && isWs c) = true
    · simp [hc, headOk]
    · simp only [Bool.not_eq_true] at hc
      simp only [hc, Bool.false_eq_true, if_false]
      simpa [headOk] using h

lemma rstrip_id (l : List Char) (h : lastOk l = true) : rstrip l = l := by
  induction l with
  | nil => rfl
  | cons c t ih =>
    cases t with
    | nil =>
      simp only [lastOk, List.getLast?_singleton, Bool.not_eq_true'] at h
      rw [rstrip_cons]
      simp [h, rstrip]
    | cons x xs =>
      rw [lastOk_cons] at h
      have ht := ih h
      rw [rstrip_cons, ht]
      simp

lemma norm_all_good (x : List Char) : (normalize_text x).all goodChar = true := by
  rw [normalize_text, stripWs]
  exact rstrip_all _ (dropWhileWs_all _ (collapse_all _ (phase1_all x)))

lemma norm_noAdj (x : List Char) : noAdjWs (normalize_text x) = true := by
  rw [normalize_text, stripWs]
  exact rstrip_noAdj _ (dropWhileWs_noAdj _ (collapse_noAdj _))

lemma norm_headOk (x : List Char) : headOk (normalize_text x) = true := by
  rw [normalize_text, stripWs]
  exact rstrip_headOk _ (dropWhileWs_headOk _)

lemma norm_lastOk (x : List Char) : lastOk (normalize_text x) = true := by
  rw [normalize_text, stripWs]
  exact rstrip_lastOk _

lemma norm_id_of_canonical (l : List Char) (hg : l.all goodChar = true)
    (hA : noAdjWs l = true) (hh : headOk l = true) (hl : lastOk l = true) :
    normalize_text l = l := by
  rw [normalize_text, phase1_fixed l hg, collapse_id l hg hA, stripWs,
    dropWhileWs_id l hh, rstrip_id l hl]

lemma normalize_idem (x : List Char) :
    normalize_text (normalize_text x) = normalize_text x :=
  norm_id_of_canonical _ (norm_all_good x) (norm_noAdj x) (norm_headOk x) (norm_lastOk x)

/-! ### The sequence-similarity ratio: well-definedness and bounds -/

lemma cpl_le_left : ∀ a b : List Char, cpl a b ≤ a.length := by
  intro a
  induction a with
  | nil => intro b; cases b <;> simp [cpl]
  | cons x as ih =>
    intro b
    cases b with
    | nil => simp [cpl]
    | cons y bs =>
      rw [cpl]
      split
      · simpa using ih bs
      · simp

lemma cpl_le_right : ∀ a b : List Char, cpl a b ≤ b.length := by
  intro a
  induction a with
  | nil => intro b; cases b <;> simp [cpl]
  | cons x as ih =>
    intro b
    cases b with
    | nil => simp [cpl]
    | cons y bs =>
      rw [cpl]
      split
      · simpa using ih bs
      · simp

lemma foldl_invariant {α β : Type} (P : β → Prop) (f : β → α → β) :
    ∀ (l : List α) (init : β), P init → (∀ b a, a ∈ l → P b → P (f b a)) →
      P (l.foldl f init) := by
  intro l
  induction l with
  | nil => intro init h _; exact h
  | cons a t ih =>
    intro init h hstep
    exact ih (f init a) (hstep init a (by simp) h)
      (fun b x hx hb => hstep b x (by simp [hx]) hb)

lemma findLongestMatch_spec (a b : List Char) :
    (findLongestMatch a b).2.2 ≠ 0 →
      (findLongestMatch a b).1 < a.length ∧ (findLongestMatch a b).2.1 < b.length ∧
      (findLongestMatch a b).2.2 =
        cpl (a.drop (findLongestMatch a b).1) (b.drop (findLongestMatch a b).2.1) := by
  rw [findLongestMatch]
  refine foldl_invariant
    (fun best : Nat × Nat × Nat => best.2.2 ≠ 0 →
      best.1 < a.length ∧ best.2.1 < b.length ∧
        best.2.2 = cpl (a.drop best.1) (b.drop best.2.1)) _ _ _ ?_ ?_
  · intro h
    exact absurd rfl h
  · intro best i hi hbest
    refine foldl_invariant
      (fun best : Nat × Nat × Nat => best.2.2 ≠ 0 →
        best.1 < a.length ∧ best.2.1 < b.length ∧
          best.2.2 = cpl (a.drop best.1) (b.drop best.2.1)) _ _ _ hbest ?_
    intro cur j hj hcur
    by_cases hlt : cur.2.2 < cpl (a.drop i) (b.drop j)
    · rw [if_pos hlt]
      intro _
      exact ⟨List.mem_range.mp hi, List.mem_range.mp hj, rfl⟩
    · rw [if_neg hlt]
      exact hcur

lemma matchTotalF_le : ∀ (fuel : Nat) (a b : List Char),
    matchTotalF fuel a b ≤ min a.length b.length := by
  intro fuel
  induction fuel with
  | zero => intro a b; simp [matchTotalF]
  | succ f ih =>
    intro a b
    rw [matchTotalF]
    by_cases hk : (findLongestMatch a b).2.2 = 0
    · simp [hk]
    · simp only [hk, if_false]
      obtain ⟨hi, hj, hcpl⟩ := findLongestMatch_spec a b hk
      have h1 := ih (a.take (findLongestMatch a b).1) (b.take (findLongestMatch a b).2.1)
      have h2 := ih (a.drop ((findLongestMatch a b).1 + (findLongestMatch a b).2.2))
        (b.drop ((findLongestMatch a b).2.1 + (findLongestMatch a b).2.2))
      have hka : (findLongestMatch a b).2.2 ≤ a.length - (findLongestMatch a b).1 := by
        rw [hcpl]
        have := cpl_le_left (a.drop (findLongestMatch a b).1) (b.drop (findLongestMatch a b).2.1)
        simpa using this
      have hkb : (findLongestMatch a b).2.2 ≤ b.length - (findLongestMatch a b).2.1 := by
        rw [hcpl]
        have := cpl_le_right (a.drop (findLongestMatch a b).1) (b.drop (findLongestMatch a b).2.1)
        simpa using this
      simp only [List.length_take, List.length_drop] at h1 h2
      omega

lemma matchTotal_le (a b : List Char) : matchTotal a b ≤ min a.length b.length :=
  matchTotalF_le _ a b

lemma matchTotalF_nil_left (fuel : Nat) (b : List Char) : matchTotalF fuel [] b = 0 := by
  cases fuel with
  | zero => rfl
  | succ f =>
    rw [matchTotalF]
    simp [findLongestMatch]

lemma matchTotalF_stable : ∀ (n : Nat) (a b : List Char), a.length + b.length ≤ n →
    ∀ f g, a.length + b.length ≤ f → a.length + b.length ≤ g →
      matchTotalF f a b = matchTotalF g a b := by
  intro n
  induction n with
  | zero =>
    intro a b hn f g _ _
    have ha : a = [] := List.length_eq_zero.mp (by omega)
    subst ha
    rw [matchTotalF_nil_left, matchTotalF_nil_left]
  | succ n ih =>
    intro a b hn f g hf hg
    cases f with
    | zero =>
      have ha : a = [] := List.length_eq_zero.mp (by omega)
      subst ha
      rw [matchTotalF_nil_left, matchTotalF_nil_left]
    | succ f' =>
      cases g with
      | zero =>
        have ha : a = [] := List.length_eq_zero.mp (by omega)
        subst ha
        rw [matchTotalF_nil_left, matchTotalF_nil_left]
      | succ g' =>
        rw [matchTotalF, matchTotalF]
        by_cases hk : (findLongestMatch a b).2.2 = 0
        · simp [hk]
        · simp only [hk, if_false]
          obtain ⟨hi, hj, hcpl⟩ := findLongestMatch_spec a b hk
          have hka : (findLongestMatch a b).2.2 ≤ a.length - (findLongestMatch a b).1 := by
            rw [hcpl]
            have := cpl_le_left (a.drop (findLongestMatch a b).1) (b.drop (findLongestMatch a b).2.1)
            simpa using this
          have hkb : (findLongestMatch a b).2.2 ≤ b.length - (findLongestMatch a b).2.1 := by
            rw [hcpl]
            have := cpl_le_right (a.drop (findLongestMatch a b).1) (b.drop (findLongestMatch a b).2.1)
            simpa using this
          have e1 := ih (a.take (findLongestMatch a b).1) (b.take (findLongestMatch a b).2.1)
            (by simp only [List.length_take]; omega) f' g'
            (by simp only [List.length_take]; omega)
            (by simp only [List.length_take]; omega)
          have e2 := ih (a.drop ((findLongestMatch a b).1 + (findLongestMatch a b).2.2))
            (b.drop ((findLongestMatch a b).2.1 + (findLongestMatch a b).2.2))
            (by simp only [List.length_drop]; omega) f' g'
            (by simp only [List.length_drop]; omega)
            (by simp only [List.length_drop]; omega)
          rw [e1, e2]

lemma sequence_similarity_nonneg (a b : List Char) : 0 ≤ sequence_similarity a b := by
  rw [sequence_similarity]
  split
  · norm_num
  · apply div_nonneg
    · positivity
    · positivity

lemma sequence_similarity_le_one (a b : List Char) : sequence_similarity a b ≤ 1 := by
  rw [sequence_similarity]
  split
  · next h => exact le_refl 1
  · next h =>
    have h1 := le_trans (matchTotal_le a b) (min_le_left a.length b.length)
    have h2 := le_trans (matchTotal_le a b) (min_le_right a.length b.length)
    have hmt : 2 * matchTotal a b ≤ a.length + b.length := by omega
    have hpos : (0 : ℚ) < ((a.length + b.length : Nat) : ℚ) := by
      exact_mod_cast Nat.pos_of_ne_zero h
    rw [div_le_one hpos]
    exact_mod_cast hmt

/-! ### Checked (exception-aware) variants agree, so no error is reachable -/

lemma jaccard_similarityE_eq (a b : List Char) :
    jaccard_similarityE a b = some (jaccard_similarity a b) := by
  rw [jaccard_similarityE, jaccard_similarity]
  split_ifs with h
  · rfl
  · push_neg at h
    have h1 : (tokSet a).Nonempty := Finset.nonempty_iff_ne_empty.mpr h.1
    have hcard : 0 < ((tokSet a ∪ tokSet b).card : ℚ) := by
      have : 0 < (tokSet a ∪ tokSet b).card :=
        Finset.card_pos.mpr (h1.mono Finset.subset_union_left)
      exact_mod_cast this
    rw [qdiv?, if_neg (by exact ne_of_gt hcard)]

lemma sequence_similarityE_eq (a b : List Char) :
    sequence_similarityE a b = some (sequence_similarity a b) := by
  rw [sequence_similarityE, sequence_similarity]
  split_ifs with h
  · rfl
  · have : ((a.length + b.length : Nat) : ℚ) ≠ 0 := by
      exact_mod_cast h
    rw [qdiv?, if_neg this]

lemma scoreOfE_eq (ut s : List Char) : scoreOfE ut s = some (scoreOf ut s) := by
  rw [scoreOfE, scoreOf]
  by_cases h : tokSet s ∩ tokSet ut ≠ ∅
  · rw [if_pos h, if_pos h]
    have hd : ((max 1 (tokSet s).card : Nat) : ℚ) ≠ 0 := by
      have h1 : 0 < max 1 (tokSet s).card := by omega
      exact_mod_cast h1.ne'
    rw [qdiv?, if_neg hd]
    rfl
  · rw [if_neg h, if_neg h, jaccard_similarityE_eq, sequence_similarityE_eq]
    rfl

lemma loopStepE_eq (ut : List Char) (acc : Option Row × ℚ) (r : Row) :
    loopStepE ut acc r = some (loopStep ut acc r) := by
  rw [loopStepE, loopStep]
  split_ifs with h
  · rfl
  · rw [scoreOfE_eq]
    rfl

lemma foldlM_loop_eq (ut : List Char) :
    ∀ (rows : List Row) (acc : Option Row × ℚ),
      List.foldlM (loopStepE ut) acc rows = some (rows.foldl (loopStep ut) acc) := by
  intro rows
  induction rows with
  | nil => intro acc; rfl
  | cons r t ih =>
    intro acc
    rw [List.foldlM_cons, loopStepE_eq]
    simpa using ih (loopStep ut acc r)

/-! ### The candidate loop: running maximum and first-seen-wins -/

lemma maxScoreOver_nil (ut : List Char) : maxScoreOver ut [] = 0 := rfl

lemma maxScoreOver_cons (ut : List Char) (r : Row) (rows : List Row) :
    maxScoreOver ut (r :: rows) =
      if r.symptom_norm.getD [] = [] then maxScoreOver ut rows
      else max (rowScore ut r) (maxScoreOver ut rows) := rfl

lemma maxScoreOver_nonneg (ut : List Char) (rows : List Row) :
    0 ≤ maxScoreOver ut rows := by
  induction rows with
  | nil => exact le_refl 0
  | cons r rows ih =>
    rw [maxScoreOver_cons]
    split
    · exact ih
    · exact le_trans ih (le_max_right _ _)

lemma loopStep_skip (ut : List Char) (acc : Option Row × ℚ) (r : Row)
    (h : r.symptom_norm.getD [] = []) : loopStep ut acc r = acc := by
  rw [loopStep, if_pos h]

lemma loopStep_cand (ut : List Char) (acc : Option Row × ℚ) (r : Row)
    (h : ¬ r.symptom_norm.getD [] = []) :
    loopStep ut acc r = if acc.2 < rowScore ut r then (some r, rowScore ut r) else acc := by
  rw [loopStep, if_neg h]
  rfl

lemma loopStep_snd (ut : List Char) (acc : Option Row × ℚ) (r : Row) :
    (loopStep ut acc r).2 =
      if r.symptom_norm.getD [] = [] then acc.2 else max acc.2 (rowScore ut r) := by
  by_cases h : r.symptom_norm.getD [] = []
  · rw [loopStep_skip ut acc r h, if_pos h]
  · rw [loopStep_cand ut acc r h, if_neg h]
    by_cases hlt : acc.2 < rowScore ut r
    · rw [if_pos hlt, max_eq_right hlt.le]
    · rw [if_neg hlt, max_eq_left (le_of_not_lt hlt)]

lemma foldl_loop_snd (ut : List Char) :
    ∀ (rows : List Row) (acc : Option Row × ℚ), 0 ≤ acc.2 →
      (rows.foldl (loopStep ut) acc).2 = max acc.2 (maxScoreOver ut rows) := by
  intro rows
  induction rows with
  | nil =>
    intro acc h
    rw [List.foldl_nil, maxScoreOver_nil, max_eq_left h]
  | cons r rows ih =>
    intro acc h
    rw [List.foldl_cons]
    have h2 : 0 ≤ (loopStep ut acc r).2 := by
      rw [loopStep_snd]
      split
      · exact h
      · exact le_trans h (le_max_left _ _)
    rw [ih (loopStep ut acc r) h2, loopStep_snd, maxScoreOver_cons]
    by_cases hc : r.symptom_norm.getD [] = []
    · rw [if_pos hc, if_pos hc]
    · rw [if_neg hc, if_neg hc, max_assoc]

lemma foldl_loop_no_update (ut : List Char) :
    ∀ (rows : List Row) (acc : Option Row × ℚ), maxScoreOver ut rows ≤ acc.2 →
      rows.foldl (loopStep ut) acc = acc := by
  intro rows
  induction rows with
  | nil => intro acc _; rfl
  | cons r rows ih =>
    intro acc h
    rw [maxScoreOver_cons] at h
    rw [List.foldl_cons]
    by_cases hc : r.symptom_norm.getD [] = []
    · rw [if_pos hc] at h
      rw [loopStep_skip ut acc r hc]
      exact ih acc h
    · rw [if_neg hc] at h
      rw [loopStep_cand ut acc r hc,
        if_neg (not_lt.mpr (le_trans (le_max_left _ _) h))]
      exact ih acc (le_trans (le_max_right _ _) h)

lemma foldl_loop_first (ut : List Char) :
    ∀ (rows : List Row) (acc : Option Row × ℚ), 0 ≤ acc.2 →
      acc.2 < maxScoreOver ut rows →
      ∃ r, firstWithScore ut rows (maxScoreOver ut rows) = some r ∧
        rows.foldl (loopStep ut) acc = (some r, maxScoreOver ut rows) := by
  intro rows
  induction rows with
  | nil =>
    intro acc h0 hlt
    rw [maxScoreOver_nil] at hlt
    exact absurd hlt (not_lt.mpr h0)
  | cons r rows ih =>
    intro acc h0 hlt
    by_cases hc : r.symptom_norm.getD [] = []
    · have hM : maxScoreOver ut (r :: rows) = maxScoreOver ut rows := by
        rw [maxScoreOver_cons, if_pos hc]
      rw [hM] at hlt ⊢
      rw [List.foldl_cons, loopStep_skip ut acc r hc]
      have hskip : firstWithScore ut (r :: rows) (maxScoreOver ut rows) =
          firstWithScore ut rows (maxScoreOver ut rows) := by
        rw [firstWithScore, firstWithScore, List.find?_cons]
        simp [hc]
      rw [hskip]
      exact ih acc h0 hlt
    · by_cases hord : maxScoreOver ut rows ≤ rowScore ut r
      · have hM : maxScoreOver ut (r :: rows) = rowScore ut r := by
          rw [maxScoreOver_cons, if_neg hc, max_eq_left hord]
        rw [hM] at hlt ⊢
        refine ⟨r, ?_, ?_⟩
        · rw [firstWithScore, List.find?_cons]
          simp [hc]
        · rw [List.foldl_cons, loopStep_cand ut acc r hc, if_pos hlt]
          exact foldl_loop_no_update ut rows (some r, rowScore ut r) hord
      · have hM : maxScoreOver ut (r :: rows) = maxScoreOver ut rows := by
          rw [maxScoreOver_cons, if_neg hc, max_eq_right (le_of_not_le hord)]
        rw [hM] at hlt ⊢
        have hne : ¬ rowScore ut r = maxScoreOver ut rows := by
          intro he
          exact hord (le_of_eq he.symm)
        have hskip : firstWithScore ut (r :: rows) (maxScoreOver ut rows) =
            firstWithScore ut rows (maxScoreOver ut rows) := by
          rw [firstWithScore, firstWithScore, List.find?_cons]
          simp [hne]
        rw [hskip, List.foldl_cons]
        have hsnd : (loopStep ut acc r).2 = max acc.2 (rowScore ut r) := by
          rw [loopStep_snd, if_neg hc]
        refine ih (loopStep ut acc r) ?_ ?_
        · rw [hsnd]
          exact le_trans h0 (le_max_left _ _)
        · rw [hsnd]
          exact max_lt hlt (lt_of_not_le hord)

lemma fbm_unfold (q : List Char) (rows : List Row) (ms : ℚ) (hq : q ≠ []) (hr : rows ≠ []) :
    find_best_match q rows ms =
      if ms ≤ (rows.foldl (loopStep (normalize_text q)) (none, 0)).2
      then rows.foldl (loopStep (normalize_text q)) (none, 0)
      else (none, (rows.foldl (loopStep (normalize_text q)) (none, 0)).2) := by
  have hguard : ¬ (q = [] ∨ rows = []) := by simp [hq, hr]
  simp only [find_best_match, hguard, if_false]

lemma tokSet_nil : tokSet [] = ∅ := rfl

lemma scoreOf_empty_query (s : List Char) (hs : s ≠ []) : scoreOf [] s = 0 := by
  rw [scoreOf]
  rw [tokSet_nil, if_neg (by simp [Finset.inter_empty])]
  have hj : jaccard_similarity [] s = 0 := by
    rw [jaccard_similarity]
    rw [if_pos (Or.inl tokSet_nil)]
  have hlen : ¬ (List.length ([] : List Char) + s.length = 0) := by
    simpa using hs
  have hseq : sequence_similarity [] s = 0 := by
    rw [sequence_similarity, if_neg hlen]
    rw [show matchTotal [] s = 0 from matchTotalF_nil_left _ s]
    norm_num
  rw [hj, hseq]
  norm_num

lemma maxScoreOver_empty_query (rows : List Row) : maxScoreOver [] rows = 0 := by
  induction rows with
  | nil => rfl
  | cons r rows ih =>
    rw [maxScoreOver_cons]
    by_cases hc : r.symptom_norm.getD [] = []
    · rw [if_pos hc]
      exact ih
    · rw [if_neg hc, ih, rowScore, scoreOf_empty_query _ hc]
      exact max_self 0

/-! ### The claims -/

/-- C1: when the candidate's non-empty normalized key-phrase shares at least one
token with the normalized query, its score is the fraction of the key-phrase's
tokens appearing in the query, raised (never lowered) to `max(score, 0.9)` when
the key-phrase occurs contiguously in the normalized query. -/
theorem C1_overlap_score (q s : List Char) (hs : s ≠ [])
    (h : tokSet s ∩ tokSet (normalize_text q) ≠ ∅) :
    scoreOf (normalize_text q) s =
      (if hasSubstr (normalize_text q) s
        then max (((tokSet s ∩ tokSet (normalize_text q)).card : ℚ) /
          ((max 1 (tokSet s).card : Nat) : ℚ)) (0.9 : ℚ)
        else ((tokSet s ∩ tokSet (normalize_text q)).card : ℚ) /
          ((max 1 (tokSet s).card : Nat) : ℚ)) ∧
    ((tokSet s ∩ tokSet (normalize_text q)).card : ℚ) /
      ((max 1 (tokSet s).card : Nat) : ℚ) ≤ scoreOf (normalize_text q) s := by
  constructor
  · rw [scoreOf, if_pos h]
  · rw [scoreOf, if_pos h]
    by_cases hsub : hasSubstr (normalize_text q) s = true
    · rw [if_pos hsub]
      exact le_max_left _ _
    · rw [if_neg hsub]

/-- Witness for C1: query "I have a headache", key-phrase "headache". -/
theorem C1_overlap_score_witness :
    scoreOf (normalize_text "I have a headache".toList) "headache".toList =
      (if hasSubstr (normalize_text "I have a headache".toList) "headache".toList
        then max (((tokSet "headache".toList ∩
            tokSet (normalize_text "I have a headache".toList)).card : ℚ) /
          ((max 1 (tokSet "headache".toList).card : Nat) : ℚ)) (0.9 : ℚ)
        else ((tokSet "headache".toList ∩
            tokSet (normalize_text "I have a headache".toList)).card : ℚ) /
          ((max 1 (tokSet "headache".toList).card : Nat) : ℚ)) ∧
    ((tokSet "headache".toList ∩
        tokSet (normalize_text "I have a headache".toList)).card : ℚ) /
      ((max 1 (tokSet "headache".toList).card : Nat) : ℚ) ≤
      scoreOf (normalize_text "I have a headache".toList) "headache".toList :=
  C1_overlap_score "I have a headache".toList "headache".toList (by decide) (by decide)

/-- C2: with disjoint token sets the score is the maximum of the jaccard
similarity and 0.8 times the sequence-similarity ratio; jaccard is 0 when either
token set is empty and intersection-over-union otherwise; the ratio lies in [0,1]. -/
theorem C2_disjoint_score (q s : List Char) (hs : s ≠ [])
    (h : tokSet s ∩ tokSet (normalize_text q) = ∅) :
    scoreOf (normalize_text q) s =
      max (jaccard_similarity (normalize_text q) s)
        (sequence_similarity (normalize_text q) s * (0.8 : ℚ)) ∧
    (∀ a b : List Char, tokSet a = ∅ ∨ tokSet b = ∅ → jaccard_similarity a b = 0) ∧
    (∀ a b : List Char, tokSet a ≠ ∅ → tokSet b ≠ ∅ →
      jaccard_similarity a b =
        ((tokSet a ∩ tokSet b).card : ℚ) / ((tokSet a ∪ tokSet b).card : ℚ)) ∧
    0 ≤ sequence_similarity (normalize_text q) s ∧
    sequence_similarity (normalize_text q) s ≤ 1 := by
  refine ⟨?_, ?_, ?_, sequence_similarity_nonneg _ _, sequence_similarity_le_one _ _⟩
  · rw [scoreOf, if_neg (by simp [h])]
  · intro a b hab
    rw [jaccard_similarity, if_pos hab]
  · intro a b ha hb
    rw [jaccard_similarity, if_neg (by simp [ha, hb])]

/-- Witness for C2: query "broken arm", key-phrase "fever". -/
theorem C2_disjoint_score_witness :
    scoreOf (normalize_text "broken arm".toList) "fever".toList =
      max (jaccard_similarity (normalize_text "broken arm".toList) "fever".toList)
        (sequence_similarity (normalize_text "broken arm".toList) "fever".toList * (0.8 : ℚ)) ∧
    (∀ a b : List Char, tokSet a = ∅ ∨ tokSet b = ∅ → jaccard_similarity a b = 0) ∧
    (∀ a b : List Char, tokSet a ≠ ∅ → tokSet b ≠ ∅ →
      jaccard_similarity a b =
        ((tokSet a ∩ tokSet b).card : ℚ) / ((tokSet a ∪ tokSet b).card : ℚ)) ∧
    0 ≤ sequence_similarity (normalize_text "broken arm".toList) "fever".toList ∧
    sequence_similarity (normalize_text "broken arm".toList) "fever".toList ≤ 1 :=
  C2_disjoint_score "broken arm".toList "fever".toList (by decide) (by decide)

/-- C3: for a non-empty query and record table the returned score is the true
maximum candidate score; when it clears the (positive) threshold the returned
record is a candidate attaining it, and on rejection the pair is (absent, true
maximum), not zeroed. -/
theorem C3_best_score_returned (q : List Char) (rows : List Row) (ms : ℚ)
    (hq : q ≠ []) (hr : rows ≠ []) :
    (find_best_match q rows ms).2 = maxScoreOver (normalize_text q) rows ∧
    (ms ≤ maxScoreOver (normalize_text q) rows →
      0 < maxScoreOver (normalize_text q) rows →
      ∃ r, find_best_match q rows ms = (some r, maxScoreOver (normalize_text q) rows) ∧
        r ∈ rows ∧ r.symptom_norm.getD [] ≠ [] ∧
        rowScore (normalize_text q) r = maxScoreOver (normalize_text q) rows) ∧
    (maxScoreOver (normalize_text q) rows < ms →
      find_best_match q rows ms = (none, maxScoreOver (normalize_text q) rows)) := by
  have hsnd : (rows.foldl (loopStep (normalize_text q)) (none, 0)).2 =
      maxScoreOver (normalize_text q) rows := by
    rw [foldl_loop_snd (normalize_text q) rows (none, 0) (le_refl 0)]
    exact max_eq_right (maxScoreOver_nonneg _ _)
  refine ⟨?_, ?_, ?_⟩
  · rw [fbm_unfold q rows ms hq hr]
    split
    · exact hsnd
    · exact hsnd
  · intro hms hpos
    obtain ⟨r, hfind, hfold⟩ :=
      foldl_loop_first (normalize_text q) rows (none, 0) (le_refl 0) (by simpa using hpos)
    refine ⟨r, ?_, ?_, ?_, ?_⟩
    · rw [fbm_unfold q rows ms hq hr, if_pos (by rw [hsnd]; exact hms), hfold]
    · exact List.mem_of_find?_eq_some hfind
    · have := List.find?_some hfind
      simp only [Bool.and_eq_true, Bool.not_eq_true', decide_eq_false_iff_not,
        decide_eq_true_eq] at this
      exact this.1
    · have := List.find?_some hfind
      simp only [Bool.and_eq_true, Bool.not_eq_true', decide_eq_false_iff_not,
        decide_eq_true_eq] at this
      exact this.2
  · intro hlt
    rw [fbm_unfold q rows ms hq hr, if_neg (by rw [hsnd]; exact not_le.mpr hlt), hsnd]

/-- Witness for C3: query "stomach hurts" on the test table with the default
threshold 0.15. -/
theorem C3_best_score_returned_witness :
    (find_best_match "stomach hurts".toList testRows (0.15 : ℚ)).2 =
      maxScoreOver (normalize_text "stomach hurts".toList) testRows ∧
    ((0.15 : ℚ) ≤ maxScoreOver (normalize_text "stomach hurts".toList) testRows →
      0 < maxScoreOver (normalize_text "stomach hurts".toList) testRows →
      ∃ r, find_best_match "stomach hurts".toList testRows (0.15 : ℚ) =
          (some r, maxScoreOver (normalize_text "stomach hurts".toList) testRows) ∧
        r ∈ testRows ∧ r.symptom_norm.getD [] ≠ [] ∧
        rowScore (normalize_text "stomach hurts".toList) r =
          maxScoreOver (normalize_text "stomach hurts".toList) testRows) ∧
    (maxScoreOver (normalize_text "stomach hurts".toList) testRows < (0.15 : ℚ) →
      find_best_match "stomach hurts".toList testRows (0.15 : ℚ) =
        (none, maxScoreOver (normalize_text "stomach hurts".toList) testRows)) :=
  C3_best_score_returned "stomach hurts".toList testRows (0.15 : ℚ) (by decide) (by decide)

/-- C4: an empty (absent) query or an empty record table short-circuits to
(absent, 0). -/
theorem C4_empty_inputs (q : List Char) (rows : List Row) (ms : ℚ) :
    find_best_match [] rows ms = (none, 0) ∧ find_best_match q [] ms = (none, 0) := by
  constructor
  · rw [find_best_match, if_pos (Or.inl rfl)]
  · rw [find_best_match, if_pos (Or.inr rfl)]

/-- C5: ties are never re-broken — the loop replaces the running best only on a
strictly higher score, so the returned record is the first one attaining the
maximum score. -/
theorem C5_first_seen_wins (q : List Char) (rows : List Row) (ms : ℚ)
    (hq : q ≠ []) (hpos : 0 < maxScoreOver (normalize_text q) rows)
    (hms : ms ≤ maxScoreOver (normalize_text q) rows) :
    (find_best_match q rows ms).1 =
      firstWithScore (normalize_text q) rows (maxScoreOver (normalize_text q) rows) ∧
    (∀ (acc : Option Row × ℚ) (r : Row),
      r.symptom_norm.getD [] = [] ∨ rowScore (normalize_text q) r ≤ acc.2 →
      loopStep (normalize_text q) acc r = acc) := by
  have hr : rows ≠ [] := by
    intro hnil
    rw [hnil, maxScoreOver_nil] at hpos
    exact lt_irrefl 0 hpos
  constructor
  · obtain ⟨r, hfind, hfold⟩ :=
      foldl_loop_first (normalize_text q) rows (none, 0) (le_refl 0) (by simpa using hpos)
    rw [fbm_unfold q rows ms hq hr, if_pos (by rw [hfold]; exact hms), hfold, hfind]
  · intro acc r hskip
    rcases hskip with hempty | hle
    · exact loopStep_skip _ acc r hempty
    · by_cases hempty : r.symptom_norm.getD [] = []
      · exact loopStep_skip _ acc r hempty
      · rw [loopStep_cand _ acc r hempty, if_neg (not_lt.mpr hle)]

/-- Witness for C5: query "I have a headache" on the test table. -/
theorem C5_first_seen_wins_witness :
    (find_best_match "I have a headache".toList testRows (0.15 : ℚ)).1 =
      firstWithScore (normalize_text "I have a headache".toList) testRows
        (maxScoreOver (normalize_text "I have a headache".toList) testRows) ∧
    (∀ (acc : Option Row × ℚ) (r : Row),
      r.symptom_norm.getD [] = [] ∨
        rowScore (normalize_text "I have a headache".toList) r ≤ acc.2 →
      loopStep (normalize_text "I have a headache".toList) acc r = acc) :=
  C5_first_seen_wins "I have a headache".toList testRows (0.15 : ℚ)
    (by decide) (by with_unfolding_all decide) (by with_unfolding_all decide)

/-- C6: normalization is idempotent on every string (the empty/absent string
included), and every loaded record's cached normalized key-phrase is a fixed
point of normalization. -/
theorem C6_normalize_idempotent :
    (∀ x : List Char, normalize_text (normalize_text x) = normalize_text x) ∧
    (∀ r : RawRow, normalize_text ((loadRow r).symptom_norm.getD []) =
      (loadRow r).symptom_norm.getD []) := by
  refine ⟨normalize_idem, fun r => ?_⟩
  simp only [loadRow, Option.getD_some]
  exact normalize_idem _

/-- C7: the matcher and its score arithmetic are total — the checked variants,
whose `none` branch marks exactly the operations that could raise, always
return `some` of the unchecked result, for every input shape (missing fields
are tolerated as empty strings via the `Option` record fields). -/
theorem C7_no_exception :
    (∀ (q : List Char) (rows : List Row) (ms : ℚ),
      find_best_matchE q rows ms = some (find_best_match q rows ms)) ∧
    (∀ a b : List Char, scoreOfE a b = some (scoreOf a b)) := by
  constructor
  · intro q rows ms
    by_cases h : q = [] ∨ rows = []
    · simp only [find_best_matchE, find_best_match, if_pos h]
    · simp only [find_best_matchE, find_best_match, if_neg h]
      rw [foldlM_loop_eq]
      rfl
  · exact scoreOfE_eq

set_option maxHeartbeats 2000000 in
/-- C8: on the three-record test table with threshold 0.15, "I have a headache"
matches the headache record and "stomach hurts" the stomach-pain record;
"zzzz" yields (absent, 0); but "broken arm" — which the claim and the repo's
own `test_no_match` expect to be rejected — is matched to the headache record
with score 8/45 ≈ 0.178 ≥ 0.15. -/
theorem C8_test_queries :
    (find_best_match "I have a headache".toList testRows (0.15 : ℚ)).1 = some headacheRow ∧
    (find_best_match "stomach hurts".toList testRows (0.15 : ℚ)).1 = some stomachRow ∧
    find_best_match "zzzz".toList testRows (0.15 : ℚ) = (none, 0) ∧
    find_best_match "broken arm".toList testRows (0.15 : ℚ) =
      (some headacheRow, (8 : ℚ) / 45) := by
  refine ⟨by with_unfolding_all decide, by with_unfolding_all decide,
    by with_unfolding_all decide, by with_unfolding_all decide⟩

/-- C9 counterexample: the present record with no fields at all (the model of
Python's empty dict, which is falsy) is given the fixed no-match sentence, not
the six labeled lines the claim promises for every present record. -/
theorem C9_empty_dict_counterexample :
    format_result_row (some (⟨none, none, none, none, none, none, none⟩ : Row)) =
      "No matching symptom found.".toList ∧
    format_result_row (some (⟨none, none, none, none, none, none, none⟩ : Row)) ≠
      joinLines (fieldLines (⟨none, none, none, none, none, none, none⟩ : Row)) := by
  refine ⟨rfl, by decide⟩

/-- C9 (amended): formatting an absent record — or a present record with no
fields at all, which Python's `if not row` also treats as absent — yields the
fixed no-match sentence; every other present record renders as the six labeled
lines in fixed order, a missing field rendering as the empty string (shown by
the record whose only field is its key-phrase). -/
theorem C9_format_result :
    format_result_row none = "No matching symptom found.".toList ∧
    (∀ r : Row, r.isEmptyDict = true →
      format_result_row (some r) = "No matching symptom found.".toList) ∧
    (∀ r : Row, r.isEmptyDict = false →
      format_result_row (some r) = joinLines (fieldLines r)) ∧
    fieldLines ⟨some "headache".toList, none, none, none, none, none, none⟩ =
      ["Symptom: headache".toList, "Possible Conditions: ".toList, "Medicines: ".toList,
       "Recommended Food: ".toList, "Avoid: ".toList, "See Doctor If: ".toList] := by
  refine ⟨rfl, fun r h => ?_, fun r h => ?_, by decide⟩
  · simp only [format_result_row]
    rw [if_pos h]
  · simp only [format_result_row]
    rw [if_neg (by simp [h])]
    simp [fieldLines, joinLines]

/-- Witness for C9: the stomach-pain record (all fields present) renders as the
six labeled lines, and the all-fields-missing record gets the no-match sentence. -/
theorem C9_format_result_witness :
    format_result_row (some stomachRow) = joinLines (fieldLines stomachRow) ∧
    format_result_row (some (⟨none, none, none, none, none, none, none⟩ : Row)) =
      "No matching symptom found.".toList :=
  ⟨C9_format_result.2.2.1 stomachRow (by decide),
    C9_format_result.2.1 ⟨none, none, none, none, none, none, none⟩ (by decide)⟩

/-- C10: a non-empty query that normalizes to the empty string (e.g. pure
punctuation) scores 0 against every candidate, so the matcher returns
(absent, 0) for any non-empty table. -/
theorem C10_blank_normalized_query (q : List Char) (rows : List Row) (ms : ℚ)
    (hq : q ≠ []) (hr : rows ≠ []) (hnorm : normalize_text q = []) :
    find_best_match q rows ms = (none, 0) := by
  rw [fbm_unfold q rows ms hq hr, hnorm]
  have hfold : rows.foldl (loopStep []) (none, 0) = ((none : Option Row), (0 : ℚ)) :=
    foldl_loop_no_update [] rows (none, 0) (le_of_eq (maxScoreOver_empty_query rows))
  rw [hfold]
  split
  · rfl
  · rfl

/-- Witness for C10: the pure-punctuation query "!!!" on the test table. -/
theorem C10_blank_normalized_query_witness :
    find_best_match "!!!".toList testRows (0.15 : ℚ) = (none, 0) :=
  C10_blank_normalized_query "!!!".toList testRows (0.15 : ℚ)
    (by decide) (by decide) (by decide)

end App
